import Mathlib

/-!
Verification of the angstrom order-flow auction node core against its
natural-language specification.  The Rust source is embedded shallowly:
machine integers (U256, u128, u64) become `Nat`/`Int` (they are only ever
compared, added and checked-subtracted in the embedded fragments, so no
wraparound is observable), `HashMap`s become association lists, fallible
code returns `Except`, and panics (checked arithmetic underflow, `unwrap`)
are modelled as error results.  Calls into the external `uniswap_v3_math`
crate and into repository modules whose sources are not available
(`angstrom_types::matching`) are modelled as oracle parameters or as
definitions marked `Modelled from the spec:`.
-/

set_option linter.unusedVariables false

namespace Angstrom

/-! ## Pool manager state-change cache (`pool_manager.rs`) -/

/-- `StateChange` from `pool_manager.rs`: an optional pool snapshot plus the
block number it was taken at.  The pool type is a parameter because the cache
logic never inspects the snapshot. -/
structure StateChange (Pool : Type) where
  state_change : Option Pool
  block_number : Nat
deriving Repr, DecidableEq

/-- `PoolManagerError` from `pool_manager.rs` (the variants reachable in the
embedded fragments). -/
inductive PoolManagerError where
  | NoStateChangesInCache
  | PopFrontError
  | CapacityError
  | SwapSimulationFailed
deriving Repr, DecidableEq

/-- The loop of `UniswapPoolManager::unwind_state_changes`: the per-pool deque
is a list whose head is the front (most recent entry).  While the front entry
has `block_number >= block_to_unwind` it is popped and, when it carries a
snapshot, the pool is replaced by it; the loop stops successfully at the first
older entry and fails with `NoStateChangesInCache` when the deque runs out.
(The source's `PopFrontError` branch is unreachable: `cache.get(0)` returning
`Some` guarantees `pop_front` succeeds, which the list model makes explicit.) -/
def unwindLoop {Pool : Type} :
    Pool → List (StateChange Pool) → Nat →
    Except PoolManagerError (Pool × List (StateChange Pool))
  | _, [], _ => .error .NoStateChangesInCache
  | pool, sc :: rest, blockToUnwind =>
    if blockToUnwind ≤ sc.block_number then
      match sc.state_change with
      | some poolState => unwindLoop poolState rest blockToUnwind
      | none => unwindLoop pool rest blockToUnwind
    else
      .ok (pool, sc :: rest)

/-- `UniswapPoolManager::unwind_state_changes`: `none` models the pool having
no entry in the `state_change_cache` map, which is an immediate
`NoStateChangesInCache` error. -/
def unwindStateChanges {Pool : Type} (pool : Pool)
    (cache : Option (List (StateChange Pool))) (blockToUnwind : Nat) :
    Except PoolManagerError (Pool × List (StateChange Pool)) :=
  match cache with
  | some c => unwindLoop pool c blockToUnwind
  | none => .error .NoStateChangesInCache

/-- Capacity of the per-pool `ArrayDeque` in `StateChangeCache`. -/
def stateChangeCacheCapacity : Nat := 150

/-- `ArrayDeque::push_front` for a deque of capacity 150: fails when full. -/
def dequePushFront {α : Type} (l : List α) (a : α) :
    Except PoolManagerError (List α) :=
  if stateChangeCacheCapacity ≤ l.length then .error .CapacityError
  else .ok (a :: l)

/-- `UniswapPoolManager::add_state_change_to_cache` for one pool: `none`
models a missing map entry (`entry(..).or_default()` creates an empty deque).
If the deque is full the back (oldest) entry is popped, then the new entry is
pushed at the front. -/
def addStateChangeToCache {Pool : Type}
    (cache : Option (List (StateChange Pool))) (sc : StateChange Pool) :
    Except PoolManagerError (List (StateChange Pool)) :=
  let c := cache.getD []
  let c2 := if c.length = stateChangeCacheCapacity then c.dropLast else c
  dequePushFront c2 sc

/-- The per-pool history entries for blocks `B, B-1, ..., B-k`, newest first,
each carrying a snapshot. -/
def historyBackTo {Pool : Type} (snap : Nat → Pool) (B k : Nat) :
    List (StateChange Pool) :=
  (List.range (k + 1)).map fun i => ⟨some (snap i), B - i⟩

/-! ## Consensus manager network-event handling (`manager.rs`) -/

/-- `StromConsensusEvent` as seen by `ConsensusManager::on_network_event`:
a claimed block height, the sending peer, the peer that originated the
payload, and an opaque payload tag. -/
structure StromConsensusEvent where
  block_height : Nat
  sender : Nat
  payload_source : Nat
  payload : Nat
deriving Repr, DecidableEq

/-- An outbound network effect of the consensus manager. -/
inductive NetworkAction (M : Type) where
  | broadcast (msg : M)
  | sendTo (peer : Nat) (msg : M)
deriving Repr, DecidableEq

/-- The manager state touched by `on_network_event`: the current height, this
node's id (`state_transition.my_id()`), the de-duplication set
`broadcasted_messages`, and the round state machine's state (abstract). -/
structure ConsensusManagerState (R : Type) where
  current_height : Nat
  my_id : Nat
  broadcasted_messages : List StromConsensusEvent
  round : R
deriving Repr, DecidableEq

/-- `ConsensusManager::on_network_event`.  `onStromMessage` abstracts
`RoundStateMachine::on_strom_message` (round state in, event in; round state
out plus an optional unicast/broadcast reply) and `eventMsg` abstracts the
`StromConsensusEvent -> StromMessage` conversion used for re-gossip.  Returns
the new manager state and the emitted network actions. -/
def onNetworkEvent {R M : Type}
    (onStromMessage : R → StromConsensusEvent → R × Option (Option Nat × M))
    (eventMsg : StromConsensusEvent → M)
    (s : ConsensusManagerState R) (e : StromConsensusEvent) :
    ConsensusManagerState R × List (NetworkAction M) :=
  if s.current_height ≠ e.block_height then (s, [])
  else if s.my_id = e.payload_source then (s, [])
  else
    let rebroadcast :=
      if e ∈ s.broadcasted_messages then (s, ([] : List (NetworkAction M)))
      else ({ s with broadcasted_messages := e :: s.broadcasted_messages },
            [NetworkAction.broadcast (eventMsg e)])
    let s1 := rebroadcast.1
    let out := onStromMessage s1.round e
    let s2 := { s1 with round := out.1 }
    match out.2 with
    | some (some peer, msg) => (s2, rebroadcast.2 ++ [NetworkAction.sendTo peer msg])
    | some (none, msg) => (s2, rebroadcast.2 ++ [NetworkAction.broadcast msg])
    | none => (s2, rebroadcast.2)

/-! ## AMM pool simulation (`pool.rs`)

`EnhancedUniswapPool` and its swap simulation are embedded with `U256`/`u128`
amounts as `Nat`, `I256` as `Int` and the two `HashMap`s as association
lists.  The four calls into the external `uniswap_v3_math` crate
(`next_initialized_tick_within_one_word`, `get_sqrt_ratio_at_tick`,
`get_tick_at_sqrt_ratio`, `compute_swap_step`) are oracle parameters: every
theorem below holds for an arbitrary implementation of that crate.  The
`while` loop carries explicit fuel; exhausted fuel is `none` (divergence),
distinct from the source's typed errors. -/

/-- `SwapSimulationError` from `pool.rs`. -/
inductive SwapSimulationError where
  | InvalidTick
  | UniswapV3MathError
  | LiquidityUnderflow
  | InvalidSqrtPriceLimit
  | ZeroAmountSpecified
deriving Repr, DecidableEq

/-- Decidable equality for `Except` results, used to evaluate witnesses. -/
instance {E A : Type} [DecidableEq E] [DecidableEq A] : DecidableEq (Except E A) :=
  fun x y =>
  match x, y with
  | .error a, .error b =>
    if h : a = b then .isTrue (h ▸ rfl)
    else .isFalse fun hc => h (Except.error.inj hc)
  | .ok a, .ok b =>
    if h : a = b then .isTrue (h ▸ rfl)
    else .isFalse fun hc => h (Except.ok.inj hc)
  | .error a, .ok b => .isFalse fun hc => Except.noConfusion hc
  | .ok a, .error b => .isFalse fun hc => Except.noConfusion hc

/-- `amms::amm::uniswap_v3::Info`, one initialized tick's liquidity data. -/
structure TickInfo where
  initialized : Bool
  liquidity_gross : Nat
  liquidity_net : Int
deriving Repr, DecidableEq

/-- `EnhancedUniswapPool` state (the `data_loader` handle carries no swap
state and is omitted; addresses are abstracted to `Nat`). -/
structure EnhancedUniswapPool where
  sync_swap_with_sim : Bool
  token_a : Nat
  token_a_decimals : Nat
  token_b : Nat
  token_b_decimals : Nat
  liquidity : Nat
  liquidity_net : Int
  sqrt_price : Nat
  fee : Nat
  tick : Int
  tick_spacing : Int
  tick_bitmap : List (Int × Nat)
  ticks : List (Int × TickInfo)
deriving Repr, DecidableEq

/-- `uniswap_v3_math::tick_math::MIN_SQRT_RATIO`. -/
def MIN_SQRT_RATIO : Nat := 4295128739

/-- `uniswap_v3_math::tick_math::MAX_SQRT_RATIO`. -/
def MAX_SQRT_RATIO : Nat := 1461446703485210103287273052203988822378723970342

/-- `uniswap_v3_math::tick_math::MIN_TICK`. -/
def MIN_TICK : Int := -887272

/-- `uniswap_v3_math::tick_math::MAX_TICK`. -/
def MAX_TICK : Int := 887272

/-- `SwapResult` from `pool.rs`. -/
structure SwapResult where
  amount0 : Int
  amount1 : Int
  sqrt_price_x_96 : Nat
  liquidity : Nat
  tick : Int
deriving Repr, DecidableEq

/-- Oracle bundling the external `uniswap_v3_math` functions used by
`_simulate_swap`.  Signatures follow the crate: the bitmap scan takes the
bitmap, current tick, tick spacing and direction and yields the next tick
plus its initialized flag; `computeSwapStep` takes current price, target
price, liquidity, signed remaining amount and fee, and yields
`(next_price, amount_in, amount_out, fee_amount)`. -/
structure SwapMathOracle where
  nextInitializedTick :
    List (Int × Nat) → Int → Int → Bool → Except SwapSimulationError (Int × Bool)
  sqrtRatioAtTick : Int → Except SwapSimulationError Nat
  tickAtSqrtRatio : Nat → Except SwapSimulationError Int
  computeSwapStep :
    Nat → Nat → Nat → Int → Nat → Except SwapSimulationError (Nat × Nat × Nat × Nat)

/-- The mutable locals of the `_simulate_swap` loop. -/
structure SwapLoopState where
  amount_specified_remaining : Int
  amount_calculated : Int
  sqrt_price_x_96 : Nat
  tick : Int
  liquidity : Nat
deriving Repr, DecidableEq

/-- The direction-adjusted `liquidity_net` read when crossing `tickNext`
(`self.ticks.get(&tick_next).map(..).unwrap_or_default()`). -/
def crossedLiquidityNet (zeroForOne : Bool) (ticks : List (Int × TickInfo))
    (tickNext : Int) : Int :=
  match ticks.lookup tickNext with
  | some info => if zeroForOne then -info.liquidity_net else info.liquidity_net
  | none => 0

/-- Apply a signed liquidity delta to the running liquidity;
`checked_sub(..).ok_or(LiquidityUnderflow)` on the negative side. -/
def applyLiquidityNet (liquidity : Nat) (net : Int) :
    Except SwapSimulationError Nat :=
  if net < 0 then
    if liquidity < net.natAbs then .error .LiquidityUnderflow
    else .ok (liquidity - net.natAbs)
  else .ok (liquidity + net.toNat)

/-- One iteration of the `_simulate_swap` while-loop body. -/
def simulateSwapStep (O : SwapMathOracle) (pool : EnhancedUniswapPool)
    (zeroForOne exactInput : Bool) (sqrtPriceLimit : Nat) (st : SwapLoopState) :
    Except SwapSimulationError SwapLoopState :=
  match O.nextInitializedTick pool.tick_bitmap st.tick pool.tick_spacing zeroForOne with
  | .error e => .error e
  | .ok (tickNextRaw, initd) =>
    let tickNext := min MAX_TICK (max MIN_TICK tickNextRaw)
    match O.sqrtRatioAtTick tickNext with
    | .error e => .error e
    | .ok sqrtPriceNext =>
      let targetSqrtRatio :=
        if (zeroForOne ∧ sqrtPriceNext < sqrtPriceLimit) ∨
           (¬ zeroForOne ∧ sqrtPriceLimit < sqrtPriceNext) then sqrtPriceLimit
        else sqrtPriceNext
      match O.computeSwapStep st.sqrt_price_x_96 targetSqrtRatio st.liquidity
          st.amount_specified_remaining pool.fee with
      | .error e => .error e
      | .ok (newSqrtPrice, amountIn, amountOut, feeAmount) =>
        let rem :=
          if exactInput then
            st.amount_specified_remaining - ((amountIn + feeAmount : Nat) : Int)
          else st.amount_specified_remaining + (amountOut : Int)
        let calcAmt :=
          if exactInput then st.amount_calculated - (amountOut : Int)
          else st.amount_calculated + ((amountIn + feeAmount : Nat) : Int)
        if newSqrtPrice = sqrtPriceNext then
          if initd then
            match applyLiquidityNet st.liquidity
                (crossedLiquidityNet zeroForOne pool.ticks tickNext) with
            | .error e => .error e
            | .ok liq2 =>
              .ok ⟨rem, calcAmt, newSqrtPrice,
                if zeroForOne then tickNext - 1 else tickNext, liq2⟩
          else
            .ok ⟨rem, calcAmt, newSqrtPrice,
              if zeroForOne then tickNext - 1 else tickNext, st.liquidity⟩
        else if newSqrtPrice ≠ st.sqrt_price_x_96 then
          match O.tickAtSqrtRatio newSqrtPrice with
          | .error e => .error e
          | .ok tickFromPrice => .ok ⟨rem, calcAmt, newSqrtPrice, tickFromPrice, st.liquidity⟩
        else .ok ⟨rem, calcAmt, newSqrtPrice, st.tick, st.liquidity⟩

/-- The `_simulate_swap` while-loop: run while amount remains and the limit
price is not reached; `none` is fuel exhaustion. -/
def simulateSwapLoop (O : SwapMathOracle) (pool : EnhancedUniswapPool)
    (zeroForOne exactInput : Bool) (sqrtPriceLimit : Nat) :
    Nat → SwapLoopState → Option (Except SwapSimulationError SwapLoopState)
  | fuel, st =>
    if st.amount_specified_remaining ≠ 0 ∧ st.sqrt_price_x_96 ≠ sqrtPriceLimit then
      match fuel with
      | 0 => none
      | fuel + 1 =>
        match simulateSwapStep O pool zeroForOne exactInput sqrtPriceLimit st with
        | .error e => some (.error e)
        | .ok st2 =>
          simulateSwapLoop O pool zeroForOne exactInput sqrtPriceLimit fuel st2
    else some (.ok st)

/-- `EnhancedUniswapPool::_simulate_swap`. -/
def USimulateSwap (O : SwapMathOracle) (fuel : Nat) (pool : EnhancedUniswapPool)
    (tokenIn : Nat) (amountSpecified : Int) (sqrtPriceLimitOpt : Option Nat) :
    Option (Except SwapSimulationError SwapResult) :=
  if amountSpecified = 0 then some (.error .ZeroAmountSpecified)
  else
    let zeroForOne : Bool := tokenIn == pool.token_a
    let exactInput : Bool := decide (0 < amountSpecified)
    let sqrtPriceLimit := sqrtPriceLimitOpt.getD
      (if zeroForOne then MIN_SQRT_RATIO + 1 else MAX_SQRT_RATIO - 1)
    if (zeroForOne ∧ (pool.sqrt_price ≤ sqrtPriceLimit ∨ sqrtPriceLimit ≤ MIN_SQRT_RATIO)) ∨
       (¬ zeroForOne ∧ (sqrtPriceLimit ≤ pool.sqrt_price ∨ MAX_SQRT_RATIO ≤ sqrtPriceLimit)) then
      some (.error .InvalidSqrtPriceLimit)
    else
      match simulateSwapLoop O pool zeroForOne exactInput sqrtPriceLimit fuel
          ⟨amountSpecified, 0, pool.sqrt_price, pool.tick, pool.liquidity⟩ with
      | none => none
      | some (.error e) => some (.error e)
      | some (.ok st) =>
        if zeroForOne == exactInput then
          some (.ok ⟨amountSpecified - st.amount_specified_remaining,
            st.amount_calculated, st.sqrt_price_x_96, st.liquidity, st.tick⟩)
        else
          some (.ok ⟨st.amount_calculated,
            amountSpecified - st.amount_specified_remaining,
            st.sqrt_price_x_96, st.liquidity, st.tick⟩)

/-- `EnhancedUniswapPool::simulate_swap` (read-only; returns the amounts). -/
def USimulateSwapAmounts (O : SwapMathOracle) (fuel : Nat)
    (pool : EnhancedUniswapPool) (tokenIn : Nat) (amountSpecified : Int)
    (sqrtPriceLimitOpt : Option Nat) :
    Option (Except SwapSimulationError (Int × Int)) :=
  (USimulateSwap O fuel pool tokenIn amountSpecified sqrtPriceLimitOpt).map
    fun r => r.map fun res => (res.amount0, res.amount1)

/-- The commit performed by `simulate_swap_mut` on success: price, tick and
liquidity are written, every other field is untouched. -/
def commitSwapResult (pool : EnhancedUniswapPool) (res : SwapResult) :
    EnhancedUniswapPool :=
  { pool with
    liquidity := res.liquidity
    sqrt_price := res.sqrt_price_x_96
    tick := res.tick }

/-- `EnhancedUniswapPool::simulate_swap_mut`: the pool after the call paired
with the returned result (`&mut self` is untouched when `_simulate_swap`
fails). -/
def USimulateSwapMut (O : SwapMathOracle) (fuel : Nat)
    (pool : EnhancedUniswapPool) (tokenIn : Nat) (amountSpecified : Int)
    (sqrtPriceLimitOpt : Option Nat) :
    Option (EnhancedUniswapPool × Except SwapSimulationError (Int × Int)) :=
  (USimulateSwap O fuel pool tokenIn amountSpecified sqrtPriceLimitOpt).map
    fun r =>
      match r with
      | .error e => (pool, .error e)
      | .ok res => (commitSwapResult pool res, .ok (res.amount0, res.amount1))

/-- A decoded `IUniswapV3Pool::Swap` event (log decoding is external). -/
structure SwapEventData where
  amount0 : Int
  amount1 : Int
  sqrtPriceX96 : Nat
  liquidity : Nat
  tick : Int
deriving Repr, DecidableEq

/-- The four `(token_in, amount)` combinations tried by
`sync_swap_with_sim`, in source order. -/
def swapCombinations (pool : EnhancedUniswapPool) (e : SwapEventData) :
    List (Nat × Int) :=
  [(pool.token_b, e.amount1), (pool.token_a, e.amount0),
   (pool.token_a, e.amount1), (pool.token_b, e.amount0)]

/-- The `for (token_in, amount_in) in combinations` loop of
`sync_swap_with_sim`: each combination is simulated with the log's
`sqrtPriceX96` as limit; the first whose amounts equal the log's is committed
(the source commits by re-running `simulate_swap_mut` on the same arguments,
which deterministically re-derives the same result); if none matches the
result is `SwapSimulationFailed` with the pool untouched. -/
def trySyncCombos (O : SwapMathOracle) (fuel : Nat)
    (pool : EnhancedUniswapPool) (e : SwapEventData) :
    List (Nat × Int) → Option (EnhancedUniswapPool × Except PoolManagerError Unit)
  | [] => some (pool, .error .SwapSimulationFailed)
  | c :: rest =>
    match USimulateSwap O fuel pool c.1 c.2 (some e.sqrtPriceX96) with
    | none => none
    | some (.error _) => trySyncCombos O fuel pool e rest
    | some (.ok res) =>
      if res.amount0 = e.amount0 ∧ res.amount1 = e.amount1 then
        some (commitSwapResult pool res, .ok ())
      else trySyncCombos O fuel pool e rest

/-- `EnhancedUniswapPool::sync_swap_with_sim`. -/
def syncSwapWithSim (O : SwapMathOracle) (fuel : Nat)
    (pool : EnhancedUniswapPool) (e : SwapEventData) :
    Option (EnhancedUniswapPool × Except PoolManagerError Unit) :=
  trySyncCombos O fuel pool e (swapCombinations pool e)

/-- `EnhancedUniswapPool::_sync_from_swap_log` (trust path): adopt the log's
price, liquidity and tick directly. -/
def syncFromSwapLogTrust (pool : EnhancedUniswapPool) (e : SwapEventData) :
    EnhancedUniswapPool :=
  { pool with
    sqrt_price := e.sqrtPriceX96
    liquidity := e.liquidity
    tick := e.tick }

/-- `EnhancedUniswapPool::sync_from_swap_log`: dispatch on the
`sync_swap_with_sim` flag. -/
def syncFromSwapLog (O : SwapMathOracle) (fuel : Nat)
    (pool : EnhancedUniswapPool) (e : SwapEventData) :
    Option (EnhancedUniswapPool × Except PoolManagerError Unit) :=
  if pool.sync_swap_with_sim then syncSwapWithSim O fuel pool e
  else some (syncFromSwapLogTrust pool e, .ok ())

/-- Whether one combination's simulation reproduces the log's amounts
exactly (the acceptance test inside the combination loop). -/
def comboMatches (O : SwapMathOracle) (fuel : Nat)
    (pool : EnhancedUniswapPool) (e : SwapEventData) (c : Nat × Int) : Bool :=
  match USimulateSwap O fuel pool c.1 c.2 (some e.sqrtPriceX96) with
  | some (.ok res) => res.amount0 == e.amount0 && res.amount1 == e.amount1
  | _ => false

/-! ## Weighted round-robin leader selection (`leader_selection.rs`)

The source stores priorities as `f64`; the embedding uses exact rationals.
Every arithmetic step of the algorithm (sum, mean, difference, division by
the scale factor) is represented exactly; no claim under scrutiny depends on
binary floating-point rounding. -/

/-- `AngstromValidator` (peer ids are abstracted to `Nat`). -/
structure AngstromValidator where
  peer_id : Nat
  voting_power : Nat
  priority : ℚ
deriving Repr, DecidableEq

/-- Sum of voting power across the validator set. -/
def totalVotingPower (vs : List AngstromValidator) : Nat :=
  (vs.map fun v => v.voting_power).sum

/-- `WeightedRoundRobin::center_priorities`: subtract the mean priority from
every validator (the `drain`/`insert` pass is a map in the list model). -/
def centerPriorities (vs : List AngstromValidator) : List AngstromValidator :=
  let avgPriority : ℚ := (vs.map fun v => v.priority).sum / (vs.length : ℚ)
  vs.map fun v => { v with priority := v.priority - avgPriority }

/-- The running `f64::max` fold over priorities (`NEG_INFINITY` seed); on the
empty set the source folds to `-inf`, modelled by the junk value `0`, which
leaves `scale_priorities` a no-op on empty sets exactly as in the source. -/
def maxPriority : List AngstromValidator → ℚ
  | [] => 0
  | v :: rest => (rest.map fun w => w.priority).foldl max v.priority

/-- The running `f64::min` fold over priorities (`INFINITY` seed), with the
same empty-set convention as `maxPriority`. -/
def minPriority : List AngstromValidator → ℚ
  | [] => 0
  | v :: rest => (rest.map fun w => w.priority).foldl min v.priority

/-- `WeightedRoundRobin::scale_priorities`: if the priority spread exceeds
`2 * total_voting_power`, divide every priority by `spread / threshold`. -/
def scalePriorities (vs : List AngstromValidator) : List AngstromValidator :=
  let diff := maxPriority vs - minPriority vs
  let threshold : ℚ := 2 * (totalVotingPower vs : ℚ)
  if threshold < diff then
    let scale := diff / threshold
    vs.map fun v => { v with priority := v.priority / scale }
  else vs

/-- The first `drain`/`insert` pass of `proposer_selection`: add each
validator's voting power to its priority. -/
def addVotingPowers (vs : List AngstromValidator) : List AngstromValidator :=
  vs.map fun v => { v with priority := v.priority + (v.voting_power : ℚ) }

/-- `Iterator::max_by` on priorities: the last element attaining the maximum
priority wins (`partial_cmp.unwrap_or(Equal)` has no `NaN` case in the exact
model). -/
def maxByPriority : List AngstromValidator → Option AngstromValidator
  | [] => none
  | v :: rest =>
    match maxByPriority rest with
    | none => some v
    | some w => some (if w.priority < v.priority then v else w)

/-- `HashSet::replace`: swap in the updated record for the entry with the
same `peer_id` (validator equality and hashing are by `peer_id` only). -/
def replaceValidator (vs : List AngstromValidator) (p : AngstromValidator) :
    List AngstromValidator :=
  vs.map fun v => if v.peer_id = p.peer_id then p else v

/-- `WeightedRoundRobin::proposer_selection`: boost every priority by its
voting power, pick the maximum-priority validator, subtract the total voting
power from the winner.  `none` models the `unwrap` panic on an empty set. -/
def proposerSelection (vs : List AngstromValidator) :
    Option (Nat × List AngstromValidator) :=
  let total := totalVotingPower vs
  let vs1 := addVotingPowers vs
  match maxByPriority vs1 with
  | none => none
  | some proposer =>
    some (proposer.peer_id,
      replaceValidator vs1 { proposer with priority := proposer.priority - (total : ℚ) })

/-- The `for _ in 0..rounds_to_catchup` loop of `choose_proposer`: each round
centers, scales and selects; the leader reported is the winner of the final
round (`rest.getD pid` keeps the most recent winner). -/
def catchupRounds : Nat → List AngstromValidator →
    Option (Option Nat × List AngstromValidator)
  | 0, vs => some (none, vs)
  | n + 1, vs =>
    match proposerSelection (scalePriorities (centerPriorities vs)) with
    | none => none
    | some (pid, vs2) =>
      match catchupRounds n vs2 with
      | none => none
      | some (rest, vsf) => some (some (rest.getD pid), vsf)

/-- `WeightedRoundRobin` (the on-disk state restore in `new` is external
persistence and not modelled). -/
structure WeightedRoundRobin where
  validators : List AngstromValidator
  new_joiner_penalty_factor : ℚ
  block_number : Nat
deriving Repr, DecidableEq

/-- `WeightedRoundRobin::choose_proposer`. -/
def chooseProposer (w : WeightedRoundRobin) (blockNumber : Nat) :
    Option (Option Nat × WeightedRoundRobin) :=
  match catchupRounds (blockNumber - w.block_number) w.validators with
  | none => none
  | some (leader, vs) =>
    some (leader, { w with validators := vs, block_number := blockNumber })

/-- `WeightedRoundRobin::new` (without the cache-file restore path, which is
an external persistence concern). -/
def mkWeightedRoundRobin (validators : List AngstromValidator)
    (blockNumber : Nat) (penalty : Option ℚ) : WeightedRoundRobin :=
  ⟨validators, penalty.getD (1125 / 1000), blockNumber⟩

/-- The leader computation in `ConsensusManager::new`: build the selector at
`current_height` and immediately run `choose_proposer(current_height)`
(whose result the source unwraps). -/
def managerInitLeader (validators : List AngstromValidator)
    (currentHeight : Nat) : Option (Option Nat) :=
  (chooseProposer (mkWeightedRoundRobin validators currentHeight none)
    currentHeight).map Prod.fst

/-- One selection round exactly as the claim words it: re-center priorities
by subtracting their mean; scale all priorities down proportionally if the
spread `max - min` exceeds `2 * total voting power`; add every validator's
voting power to its priority; select the maximum-priority validator as
proposer; subtract the total voting power from the winner's priority. -/
def claimSelectionRound (vs : List AngstromValidator) :
    Option (Nat × List AngstromValidator) :=
  let mean : ℚ := (vs.map fun v => v.priority).sum / (vs.length : ℚ)
  let centered := vs.map fun v => { v with priority := v.priority - mean }
  let totalPower : ℚ := (vs.map fun v => (v.voting_power : ℚ)).sum
  let spread := maxPriority centered - minPriority centered
  let scaled :=
    if 2 * totalPower < spread then
      centered.map fun v => { v with priority := v.priority * (2 * totalPower) / spread }
    else centered
  let boosted := scaled.map fun v => { v with priority := v.priority + (v.voting_power : ℚ) }
  match maxByPriority boosted with
  | none => none
  | some winner =>
    some (winner.peer_id, boosted.map fun v =>
      if v.peer_id = winner.peer_id then { v with priority := v.priority - totalPower }
      else v)

/-- The claim's whole `choose_proposer` description: one `claimSelectionRound`
per block from `block_number + 1` through the target, the returned peer being
the winner of the final round. -/
def claimCatchupRounds : Nat → List AngstromValidator →
    Option (Option Nat × List AngstromValidator)
  | 0, vs => some (none, vs)
  | n + 1, vs =>
    match claimSelectionRound vs with
    | none => none
    | some (pid, vs2) =>
      match claimCatchupRounds n vs2 with
      | none => none
      | some (rest, vsf) => some (some (rest.getD pid), vsf)

/-- A swap-math oracle for concrete witnesses: the next tick is one step up
and uninitialized, every tick prices at `4.3e12`, and a swap step lands on
the target price consuming `amount_in = 3`, `amount_out = 2`, `fee = 1`. -/
def testOracle : SwapMathOracle where
  nextInitializedTick := fun _ t _ _ => .ok (t + 1, false)
  sqrtRatioAtTick := fun _ => .ok 4300000000000
  tickAtSqrtRatio := fun _ => .ok 7
  computeSwapStep := fun _ target _ _ _ => .ok (target, 3, 2, 1)

/-- A pool fixture for concrete witnesses. -/
def testPool : EnhancedUniswapPool where
  sync_swap_with_sim := true
  token_a := 1
  token_a_decimals := 6
  token_b := 2
  token_b_decimals := 18
  liquidity := 5
  liquidity_net := 0
  sqrt_price := 6000000000000
  fee := 500
  tick := 0
  tick_spacing := 1
  tick_bitmap := []
  ticks := []

/-- Variant oracle whose next tick is initialized and priced below the
current price, so a zero-for-one step lands exactly on it and crosses it. -/
def testOracleCross : SwapMathOracle where
  nextInitializedTick := fun _ t _ _ => .ok (t + 1, true)
  sqrtRatioAtTick := fun _ => .ok 4800000000000
  tickAtSqrtRatio := fun _ => .ok 7
  computeSwapStep := fun _ target _ _ _ => .ok (target, 3, 2, 1)

/-- Pool fixture whose tick `1` carries `liquidity_net = 10`, more than the
pool's active liquidity `5`, so crossing it zero-for-one underflows. -/
def testPoolCross : EnhancedUniswapPool :=
  { testPool with ticks := [(1, ⟨true, 100, 10⟩)] }

/-! ## ToB reward allocation (`tob.rs`)

`calculate_reward` walks the tick/liquidity curve via the external
`compute_swap_step`/`get_sqrt_ratio_at_tick` (oracle parameters), then
allocates the order's surplus `amountIn` over the recorded stakes.  The
`Ray` fixed-point price type and the `MarketSnapshot` come from
`angstrom_types::matching`, which is not under `src/`, so they are modelled
from the spec.  `U256` arithmetic that panics on underflow (the `d_price`
and `tribute` subtractions) is modelled as a checked failure. -/

/-- The failure cases of `calculate_reward`.  `SqrtPriceError`,
`NoLiquidity` and `SwapStepError` are the `eyre` wraps of the curve walk;
`TotalCostGreater` is "Total cost greater than amount offered";
`NoPurchases` is "No actual purchases could be made with this TOB order";
`PriceUnderflow` and `TributeUnderflow` model the `U256` subtraction panics
in the fill loop and the `bribe - reward_t` tribute computation. -/
inductive RewardError where
  | SqrtPriceError
  | NoLiquidity
  | SwapStepError
  | TotalCostGreater
  | NoPurchases
  | PriceUnderflow
  | TributeUnderflow
deriving Repr, DecidableEq

/-- Modelled from the spec: `Ray::calc_price(amount_in, amount_out)` from
the missing `angstrom_types::matching` module — the average price paid per
unit of output, as an exact rational. -/
def rayCalcPrice (amountIn amountOut : Nat) : ℚ :=
  (amountIn : ℚ) / (amountOut : ℚ)

/-- Modelled from the spec: `Ray::from(SqrtPriceX96)` from the missing
`angstrom_types::matching` module — a sqrt-price converted to a price (its
square), the sqrt-price itself being modelled as an exact rational. -/
def rayFromSqrtPrice (sqrtPrice : ℚ) : ℚ := sqrtPrice * sqrtPrice

/-- Modelled from the spec: `Ray::mul_quantity(quantity)` from the missing
`angstrom_types::matching` module — a quantity priced at a Ray price,
yielding a `U256` amount; the spec requires rounding to bias toward
under-donation, so the product is truncated downward. -/
def rayMulQuantity (price : ℚ) (q : Nat) : Nat := ⌊price * (q : ℚ)⌋₊

/-- Modelled from the spec: the `MarketSnapshot` handed to
`calculate_reward` (from the missing `angstrom_types::matching` module) —
per-tick liquidity lookup, the current tick and sqrt price, and the current
position's liquidity (used only for `ToBOutcome::start_liquidity`). -/
structure MarketSnapshot where
  liquidityAtTick : Int → Option Nat
  current_tick : Int
  sqrt_price_x96 : ℚ
  current_position_liquidity : Nat

/-- The fields of `OrderWithStorageData<TopOfBlockOrder>` read by
`calculate_reward`. -/
structure TopOfBlockOrderData where
  amountIn : Nat
  amountOut : Nat
  is_bid : Bool
deriving Repr, DecidableEq

/-- Oracle over the external `uniswap_v3_math` functions used by `tob.rs`:
`computeSwapStep` takes current sqrt price, target sqrt price, liquidity,
the signed remaining output and the fee in pips, and yields
`(fin_price, amount_in, amount_out, fee_amount)`. -/
structure TobMathOracle where
  sqrtRatioAtTick : Int → Option ℚ
  computeSwapStep : ℚ → ℚ → Nat → Int → Nat → Option (ℚ × Nat × Nat × Nat)

/-- One recorded stake of the curve walk:
`(avg_fill_price, end_price, amount_out)`. -/
structure Stake where
  avg : ℚ
  end_price : ℚ
  amount_out : Nat
deriving Repr, DecidableEq

/-- `fee_pips` in `calculate_reward` (hard-coded 600). -/
def tobFeePips : Nat := 600

/-- The `while expected_out < 0` walk of `calculate_reward`: step tick by
tick in the trade direction, recording one stake and accumulating
`amount_in + fee` per step.  Fuel bounds the loop (`none` = divergence). -/
def walkStakes (O : TobMathOracle) (liquidityAt : Int → Option Nat)
    (tickMotion : Int) (feePips : Nat) :
    Nat → Int → Int → ℚ → Option (Except RewardError (List Stake × Nat))
  | fuel, expectedOut, currentTick, currentPrice =>
    if 0 ≤ expectedOut then some (.ok ([], 0))
    else
      match fuel with
      | 0 => none
      | fuel + 1 =>
        match O.sqrtRatioAtTick (currentTick + tickMotion) with
        | none => some (.error .SqrtPriceError)
        | some nextPrice =>
          match liquidityAt currentTick with
          | none => some (.error .NoLiquidity)
          | some liq =>
            match O.computeSwapStep currentPrice nextPrice liq expectedOut feePips with
            | none => some (.error .SwapStepError)
            | some (finPrice, amountIn, amountOut, feeAmount) =>
              match walkStakes O liquidityAt tickMotion feePips fuel
                  (expectedOut + (amountOut : Int)) (currentTick + tickMotion)
                  finPrice with
              | none => none
              | some (.error e) => some (.error e)
              | some (.ok (stakes, cost)) =>
                some (.ok
                  (⟨rayCalcPrice amountIn amountOut, rayFromSqrtPrice finPrice,
                      amountOut⟩ :: stakes,
                    amountIn + feeAmount + cost))

/-- The bribe-sweep (`while let Some(stake) = stake_iter.next()`): walk the
stakes with a peek at the next stake's average price (or the current
stake's end price for the last one), paying `d_price * q_step` out of the
remaining bribe and advancing the filled price; a short remainder funds a
fractional increment and stops.  A negative `d_price` is the `U256`
subtraction panic (`PriceUnderflow`). -/
def fillLoop : List Stake → Nat → Nat → ℚ → Except RewardError ℚ
  | [], _, _, filled => .ok filled
  | stake :: rest, curQ, remBribe, filled =>
    let qStep := curQ + stake.amount_out
    let targetPrice :=
      match rest with
      | next :: _ => next.avg
      | [] => stake.end_price
    if stake.avg ≤ targetPrice then
      let stepCost := rayMulQuantity (targetPrice - stake.avg) qStep
      if stepCost ≤ remBribe then
        fillLoop rest qStep (remBribe - stepCost) targetPrice
      else .ok (filled + rayCalcPrice remBribe qStep)
    else .error .PriceUnderflow

/-- The donation pass (`stakes.iter().enumerate().filter_map(..)`): every
stake whose average price lies strictly below the filled price is donated
`(filled - avg) * amount_out` at its tick `current_tick + i * tick_motion`,
zero donations are dropped, and the running total (`reward_t`) is
accumulated alongside. -/
def donationLoop (currentTick : Int) (tickMotion : Int) (filled : ℚ) :
    List Stake → Nat → List (Int × Nat) × Nat
  | [], _ => ([], 0)
  | stake :: rest, i =>
    let tail := donationLoop currentTick tickMotion filled rest (i + 1)
    if stake.avg < filled then
      let reward := rayMulQuantity (filled - stake.avg) stake.amount_out
      if 0 < reward then
        ((currentTick + (i : Int) * tickMotion, reward) :: tail.1,
          reward + tail.2)
      else tail
    else tail

/-- `ToBOutcome` from `tob.rs` (`tick_donations` as an association list). -/
structure ToBOutcome where
  start_tick : Int
  start_liquidity : Nat
  tribute : Nat
  total_cost : Nat
  tick_donations : List (Int × Nat)
deriving Repr, DecidableEq

/-- `calculate_reward` from `tob.rs`. -/
def calculateReward (O : TobMathOracle) (tob : TopOfBlockOrderData)
    (amm : MarketSnapshot) (fuel : Nat) :
    Option (Except RewardError ToBOutcome) :=
  let tickMotion : Int := if tob.is_bid then 1 else -1
  match walkStakes O amm.liquidityAtTick tickMotion tobFeePips fuel
      (-(tob.amountOut : Int)) amm.current_tick amm.sqrt_price_x96 with
  | none => none
  | some (.error e) => some (.error e)
  | some (.ok (stakes, totalCost)) =>
    if tob.amountIn < totalCost then some (.error .TotalCostGreater)
    else
      match stakes with
      | [] => some (.error .NoPurchases)
      | s0 :: rest =>
        let bribe := tob.amountIn - totalCost
        match fillLoop (s0 :: rest) 0 bribe s0.avg with
        | .error e => some (.error e)
        | .ok filledPrice =>
          let dl := donationLoop amm.current_tick tickMotion filledPrice
            (s0 :: rest) 0
          if bribe < dl.2 then some (.error .TributeUnderflow)
          else
            some (.ok ⟨amm.current_tick, amm.current_position_liquidity,
              bribe - dl.2, totalCost, dl.1⟩)

/-- Oracle fixture for the ToB witnesses: every tick prices at `10`, every
swap step ends at price `10` consuming `amount_in = 4` and `fee = 1` for
`amount_out = 2`. -/
def tobTestOracle : TobMathOracle where
  sqrtRatioAtTick := fun _ => some 10
  computeSwapStep := fun _ _ _ _ _ => some (10, 4, 2, 1)

/-- Market fixture for the ToB witnesses. -/
def tobTestMarket : MarketSnapshot where
  liquidityAtTick := fun _ => some 1000
  current_tick := 0
  sqrt_price_x96 := 10
  current_position_liquidity := 1000

/-! ## Theorems: state-change cache (C9) and reorg unwind (C2) -/

/-- If every cached entry is at least as new as the unwind target, the loop
consumes the whole deque and fails. -/
theorem unwindLoop_exhausted {Pool : Type} (pool : Pool)
    (cache : List (StateChange Pool)) (target : Nat)
    (hall : ∀ sc ∈ cache, target ≤ sc.block_number) :
    unwindLoop pool cache target = .error .NoStateChangesInCache := by
  induction cache generalizing pool with
  | nil => rfl
  | cons sc rest ih =>
    have hsc : target ≤ sc.block_number := hall sc (List.mem_cons_self sc rest)
    have hrest : ∀ x ∈ rest, target ≤ x.block_number :=
      fun x hx => hall x (List.mem_cons_of_mem sc hx)
    unfold unwindLoop
    rw [if_pos hsc]
    cases h : sc.state_change with
    | some ps => exact ih ps hrest
    | none => exact ih pool hrest

/-- Unwinding a fully-populated history `B, B-1, ..., B-k` to target `B - j`
with `j < k` pops the entries down to and including the one at `B - j` and
installs its snapshot, leaving exactly the strictly older entries. -/
theorem unwindLoop_history {Pool : Type} (snap : Nat → Pool) (pool : Pool)
    (B k j : Nat) (hjk : j < k) (hkB : k ≤ B) :
    unwindLoop pool (historyBackTo snap B k) (B - j) =
      .ok (snap j, (List.range' (j + 1) (k - j)).map
        fun i => ⟨some (snap i), B - i⟩) := by
  -- generalize over the starting index of the suffix still to be processed
  suffices hgen : ∀ m a : Nat, j - a = m → a ≤ j →
      ∀ q : Pool,
      unwindLoop q ((List.range' a (k + 1 - a)).map
          fun i => (⟨some (snap i), B - i⟩ : StateChange Pool)) (B - j) =
        .ok (snap j, (List.range' (j + 1) (k - j)).map
          fun i => ⟨some (snap i), B - i⟩) by
    have h0 := hgen j 0 rfl (Nat.zero_le j) pool
    rw [historyBackTo, List.range_eq_range']
    simpa using h0
  intro m
  induction m with
  | zero =>
    intro a ha haj q
    have haeq : a = j := by omega
    subst haeq
    have hk1 : k + 1 - a = (k - a) + 1 := by omega
    have hrest : k - a = (k - a - 1) + 1 := by omega
    rw [hk1, List.range'_succ, List.map_cons, hrest, List.range'_succ,
      List.map_cons]
    unfold unwindLoop
    rw [if_pos (le_refl (B - a))]
    dsimp only
    unfold unwindLoop
    have hlt : ¬ (B - a ≤ B - (a + 1)) := by omega
    rw [if_neg hlt]
  | succ m ih =>
    intro a ha haj q
    have haltj : a < j := by omega
    have hk1 : k + 1 - a = (k - a) + 1 := by omega
    rw [hk1, List.range'_succ, List.map_cons]
    unfold unwindLoop
    have hge : B - j ≤ B - a := Nat.sub_le_sub_left haj B
    rw [if_pos hge]
    dsimp only
    have hk2 : k - a = k + 1 - (a + 1) := by omega
    rw [hk2]
    exact ih (a + 1) (by omega) (by omega) (snap a)

/-- C2: reorg unwind.  For a pool whose cache holds snapshots for blocks
`B, B-1, ..., B-k` (newest first), unwinding to block `B - j` with `j < k`
pops exactly the entries with block number `>= B - j`, ends with the pool
equal to the snapshot taken at block `B - j`, and retains exactly the
strictly older entries; if instead every cached entry is at least as new as
the target (cache exhausted before an older entry), or the pool has no cache
entry at all, the unwind fails with `NoStateChangesInCache`. -/
theorem unwind_state_changes_reorg {Pool : Type} (snap : Nat → Pool)
    (pool : Pool) (B k j : Nat) (hjk : j < k) (hkB : k ≤ B) :
    (unwindStateChanges pool (some (historyBackTo snap B k)) (B - j) =
      .ok (snap j, (List.range' (j + 1) (k - j)).map
        fun i => ⟨some (snap i), B - i⟩)) ∧
    (∀ cache : List (StateChange Pool),
      (∀ sc ∈ cache, B - j ≤ sc.block_number) →
      unwindStateChanges pool (some cache) (B - j) =
        .error .NoStateChangesInCache) ∧
    (unwindStateChanges pool (none : Option (List (StateChange Pool))) (B - j) =
      .error .NoStateChangesInCache) := by
  refine ⟨?_, ?_, rfl⟩
  · exact unwindLoop_history snap pool B k j hjk hkB
  · intro cache hall
    exact unwindLoop_exhausted pool cache (B - j) hall

/-- Closed witness for C2 at `B = 10`, `k = 3`, `j = 1` over `Pool := Nat`. -/
theorem unwind_state_changes_reorg_witness :
    unwindStateChanges (1000 : Nat)
        (some (historyBackTo (fun i => 100 + i) 10 3)) (10 - 1) =
      .ok (100 + 1, (List.range' (1 + 1) (3 - 1)).map
        fun i => ⟨some (100 + i), 10 - i⟩) :=
  (unwind_state_changes_reorg (fun i => 100 + i) 1000 10 3 1
    (by decide) (by decide)).1

/-- C9: the state-change cache is bounded.  Starting from any per-pool deque
within capacity (or a missing entry), a push succeeds, yields a deque again
within the 150-entry capacity, and places the new entry at the front: when the
deque was full the back (oldest) entry is evicted first, otherwise the
existing entries are all retained. -/
theorem add_state_change_bounded {Pool : Type}
    (cache : Option (List (StateChange Pool))) (sc : StateChange Pool)
    (hlen : (cache.getD []).length ≤ 150) :
    ∃ c2, addStateChangeToCache cache sc = .ok c2 ∧
      c2.length ≤ 150 ∧
      c2 = sc :: (if (cache.getD []).length = 150
        then (cache.getD []).dropLast else cache.getD []) := by
  by_cases hfull : (cache.getD []).length = 150
  · refine ⟨sc :: (cache.getD []).dropLast, ?_, ?_, by rw [if_pos hfull]⟩
    · simp only [addStateChangeToCache, dequePushFront, stateChangeCacheCapacity,
        hfull, if_pos, List.length_dropLast]
      norm_num
    · simp only [List.length_cons, List.length_dropLast, hfull]
      omega
  · refine ⟨sc :: cache.getD [], ?_, ?_, by rw [if_neg hfull]⟩
    · have hlt : (cache.getD []).length < 150 := lt_of_le_of_ne hlen hfull
      simp only [addStateChangeToCache, dequePushFront, stateChangeCacheCapacity,
        if_neg hfull]
      rw [if_neg (by omega)]
    · simp only [List.length_cons]; omega

/-- Closed witness for C9: pushing onto a full 150-entry deque evicts the
oldest entry and keeps the newest 150. -/
theorem add_state_change_bounded_witness :
    ∃ c2, addStateChangeToCache
        (some ((List.range 150).map fun i => (⟨some i, 500 - i⟩ : StateChange Nat)))
        ⟨some 999, 501⟩ = .ok c2 ∧
      c2.length ≤ 150 ∧
      c2 = ⟨some 999, 501⟩ ::
        (if (((List.range 150).map
            fun i => (⟨some i, 500 - i⟩ : StateChange Nat)).length = 150)
          then ((List.range 150).map
            fun i => (⟨some i, 500 - i⟩ : StateChange Nat)).dropLast
          else (List.range 150).map fun i => (⟨some i, 500 - i⟩ : StateChange Nat)) :=
  add_state_change_bounded
    (some ((List.range 150).map fun i => (⟨some i, 500 - i⟩ : StateChange Nat)))
    ⟨some 999, 501⟩ (by simp)

/-! ## Theorems: network-event dropping (C8) -/

/-- C8: any inbound consensus event whose claimed height differs from the
manager's current height, or whose payload originates from this node, is
dropped: `on_network_event` forwards nothing to the round state machine,
emits no network action, and leaves the manager state untouched. -/
theorem on_network_event_drops {R M : Type}
    (onStromMessage : R → StromConsensusEvent → R × Option (Option Nat × M))
    (eventMsg : StromConsensusEvent → M)
    (s : ConsensusManagerState R) (e : StromConsensusEvent)
    (hdrop : s.current_height ≠ e.block_height ∨ s.my_id = e.payload_source) :
    onNetworkEvent onStromMessage eventMsg s e = (s, []) := by
  unfold onNetworkEvent
  rcases hdrop with hheight | hself
  · rw [if_pos hheight]
  · by_cases hheight : s.current_height ≠ e.block_height
    · rw [if_pos hheight]
    · rw [if_neg hheight, if_pos hself]

/-- Closed witness for C8: a stale-height event is dropped even by a round
state machine that would otherwise mutate state and reply. -/
theorem on_network_event_drops_witness :
    onNetworkEvent (fun r (_ : StromConsensusEvent) => (r + 1, some (none, 7)))
      (fun _ => (0 : Nat))
      ⟨5, 1, [], 0⟩ ⟨6, 2, 3, 4⟩ = (⟨5, 1, [], 0⟩, []) :=
  on_network_event_drops _ _ ⟨5, 1, [], 0⟩ ⟨6, 2, 3, 4⟩ (Or.inl (by decide))

/-! ## Theorems: leader selection (C3, C10) -/

theorem peerIds_centerPriorities (vs : List AngstromValidator) :
    (centerPriorities vs).map (fun v => v.peer_id) = vs.map fun v => v.peer_id := by
  simp [centerPriorities, List.map_map, Function.comp]

theorem peerIds_scalePriorities (vs : List AngstromValidator) :
    (scalePriorities vs).map (fun v => v.peer_id) = vs.map fun v => v.peer_id := by
  unfold scalePriorities
  dsimp only
  split
  · simp [List.map_map, Function.comp]
  · rfl

theorem peerIds_addVotingPowers (vs : List AngstromValidator) :
    (addVotingPowers vs).map (fun v => v.peer_id) = vs.map fun v => v.peer_id := by
  simp [addVotingPowers, List.map_map, Function.comp]

theorem totalVotingPower_centerPriorities (vs : List AngstromValidator) :
    totalVotingPower (centerPriorities vs) = totalVotingPower vs := by
  unfold totalVotingPower centerPriorities
  dsimp only
  rw [List.map_map]
  congr 1

theorem totalVotingPower_scalePriorities (vs : List AngstromValidator) :
    totalVotingPower (scalePriorities vs) = totalVotingPower vs := by
  unfold scalePriorities
  dsimp only
  split
  · unfold totalVotingPower
    rw [List.map_map]
    congr 1
  · rfl

theorem maxByPriority_mem (vs : List AngstromValidator)
    (w : AngstromValidator) (h : maxByPriority vs = some w) : w ∈ vs := by
  induction vs with
  | nil => simp [maxByPriority] at h
  | cons v rest ih =>
    unfold maxByPriority at h
    cases hrest : maxByPriority rest with
    | none =>
      rw [hrest] at h
      simp only [Option.some_inj] at h
      exact h ▸ List.mem_cons_self v rest
    | some u =>
      rw [hrest] at h
      simp only [Option.some_inj] at h
      by_cases hc : u.priority < v.priority
      · rw [if_pos hc] at h
        exact h ▸ List.mem_cons_self v rest
      · rw [if_neg hc] at h
        exact List.mem_cons_of_mem v (ih (h ▸ hrest))

theorem maxByPriority_isSome (vs : List AngstromValidator) (hne : vs ≠ []) :
    ∃ w, maxByPriority vs = some w := by
  cases vs with
  | nil => exact absurd rfl hne
  | cons v rest =>
    unfold maxByPriority
    cases maxByPriority rest with
    | none => exact ⟨v, rfl⟩
    | some u => exact ⟨if u.priority < v.priority then v else u, rfl⟩

/-- With `peer_id`-unique validators, replacing the winner's record by its
total-power-decremented copy is the same as decrementing the matching entry
in place. -/
theorem replaceValidator_eq_map_sub (vs : List AngstromValidator)
    (w : AngstromValidator) (t : ℚ) (hmem : w ∈ vs)
    (hnodup : (vs.map fun v => v.peer_id).Nodup) :
    replaceValidator vs { w with priority := w.priority - t } =
      vs.map fun v =>
        if v.peer_id = w.peer_id then { v with priority := v.priority - t }
        else v := by
  unfold replaceValidator
  apply List.map_congr_left
  intro v hv
  dsimp only
  by_cases hid : v.peer_id = w.peer_id
  · have hvw : v = w := List.inj_on_of_nodup_map hnodup hv hmem hid
    rw [if_pos hid, if_pos hid, hvw]
  · rw [if_neg hid, if_neg hid]

theorem cast_totalVotingPower (vs : List AngstromValidator) :
    ((totalVotingPower vs : ℚ)) = (vs.map fun v => (v.voting_power : ℚ)).sum := by
  unfold totalVotingPower
  rw [Nat.cast_list_sum, List.map_map]
  rfl

/-- Mapping a priority-only update across a validator list preserves the
total voting power. -/
theorem totalVotingPower_map_priority (vs : List AngstromValidator)
    (g : AngstromValidator → ℚ) :
    totalVotingPower (vs.map fun v => { v with priority := g v }) =
      totalVotingPower vs := by
  unfold totalVotingPower
  rw [List.map_map]
  congr 1

/-- Mapping a priority-only update across a validator list preserves the
peer ids. -/
theorem peerIds_map_priority (vs : List AngstromValidator)
    (g : AngstromValidator → ℚ) :
    ((vs.map fun v => { v with priority := g v }).map fun v => v.peer_id) =
      vs.map fun v => v.peer_id := by
  rw [List.map_map]
  apply List.map_congr_left
  intro v hv
  rfl

/-- `HashSet::replace` preserves the peer ids. -/
theorem peerIds_replaceValidator (vs : List AngstromValidator)
    (p : AngstromValidator) :
    ((replaceValidator vs p).map fun v => v.peer_id) =
      vs.map fun v => v.peer_id := by
  unfold replaceValidator
  rw [List.map_map]
  apply List.map_congr_left
  intro v hv
  by_cases hid : v.peer_id = p.peer_id
  · simp [Function.comp, hid]
  · simp [Function.comp, hid]

/-- The peer ids surviving one full code-side round. -/
theorem peerIds_codeRound (vs vs2 : List AngstromValidator) (pid : Nat)
    (h : proposerSelection (scalePriorities (centerPriorities vs)) =
      some (pid, vs2)) :
    vs2.map (fun v => v.peer_id) = vs.map fun v => v.peer_id := by
  unfold proposerSelection at h
  dsimp only at h
  cases hmax : maxByPriority
      (addVotingPowers (scalePriorities (centerPriorities vs))) with
  | none => rw [hmax] at h; exact absurd h (by simp)
  | some p =>
    rw [hmax] at h
    simp only [Option.some_inj, Prod.mk.injEq] at h
    rw [← h.2, peerIds_replaceValidator, peerIds_addVotingPowers,
      peerIds_scalePriorities, peerIds_centerPriorities]

theorem length_centerPriorities (vs : List AngstromValidator) :
    (centerPriorities vs).length = vs.length := by
  simp [centerPriorities]

theorem length_scalePriorities (vs : List AngstromValidator) :
    (scalePriorities vs).length = vs.length := by
  unfold scalePriorities
  dsimp only
  split
  · simp
  · rfl

/-- A code-side round succeeds on a nonempty validator set (`max_by` finds a
winner; the source's `unwrap` cannot panic). -/
theorem codeRound_isSome (vs : List AngstromValidator) (hne : vs ≠ []) :
    ∃ pid vs2, proposerSelection (scalePriorities (centerPriorities vs)) =
      some (pid, vs2) := by
  unfold proposerSelection
  dsimp only
  have hne2 : addVotingPowers (scalePriorities (centerPriorities vs)) ≠ [] := by
    intro hnil
    have hlen : (addVotingPowers (scalePriorities (centerPriorities vs))).length
        = vs.length := by
      unfold addVotingPowers
      rw [List.length_map, length_scalePriorities, length_centerPriorities]
    rw [hnil] at hlen
    exact hne (List.length_eq_zero.mp hlen.symm)
  rcases maxByPriority_isSome _ hne2 with ⟨w, hw⟩
  rw [hw]
  exact ⟨w.peer_id, _, rfl⟩

/-- One code-side selection round (`center_priorities`, `scale_priorities`,
`proposer_selection`) coincides with the claim's monolithic description of a
round, for `peer_id`-unique validator sets. -/
theorem selectionRound_eq_claim (vs : List AngstromValidator)
    (hnodup : (vs.map fun v => v.peer_id).Nodup) :
    proposerSelection (scalePriorities (centerPriorities vs)) =
      claimSelectionRound vs := by
  unfold claimSelectionRound
  dsimp only
  rw [show (vs.map fun v => { v with priority :=
      v.priority - (vs.map fun u => u.priority).sum / (vs.length : ℚ) }) =
      centerPriorities vs from rfl]
  set C := centerPriorities vs with hC
  have hTC : ((totalVotingPower C : ℚ)) =
      (vs.map fun v => (v.voting_power : ℚ)).sum := by
    rw [hC, totalVotingPower_centerPriorities, cast_totalVotingPower]
  have hscale : scalePriorities C =
      (if 2 * (vs.map fun v => (v.voting_power : ℚ)).sum <
          maxPriority C - minPriority C then
        C.map fun v =>
          { v with priority := v.priority *
              (2 * (vs.map fun u => (u.voting_power : ℚ)).sum) /
              (maxPriority C - minPriority C) }
      else C) := by
    unfold scalePriorities
    dsimp only
    rw [hTC]
    split
    · apply List.map_congr_left
      intro u hu
      have hdd : u.priority / ((maxPriority C - minPriority C) /
          (2 * (vs.map fun v => (v.voting_power : ℚ)).sum)) =
          u.priority * (2 * (vs.map fun v => (v.voting_power : ℚ)).sum) /
          (maxPriority C - minPriority C) := div_div_eq_mul_div _ _ _
      rw [hdd]
    · rfl
  rw [hscale]
  set S := (if 2 * (vs.map fun v => (v.voting_power : ℚ)).sum <
      maxPriority C - minPriority C then
    C.map fun v =>
      { v with priority := v.priority *
          (2 * (vs.map fun u => (u.voting_power : ℚ)).sum) /
          (maxPriority C - minPriority C) }
  else C) with hS
  rw [show (S.map fun v => { v with priority :=
      v.priority + (v.voting_power : ℚ) }) = addVotingPowers S from rfl]
  unfold proposerSelection
  dsimp only
  have hcastS : ((totalVotingPower S : ℚ)) =
      (vs.map fun v => (v.voting_power : ℚ)).sum := by
    rw [hS]
    split
    · rw [totalVotingPower_map_priority C
        (fun v => v.priority * (2 * (vs.map fun u => (u.voting_power : ℚ)).sum) /
          (maxPriority C - minPriority C))]
      rw [hC, totalVotingPower_centerPriorities, cast_totalVotingPower]
    · exact hTC
  rw [hcastS]
  have hidsS : S.map (fun v => v.peer_id) = vs.map fun v => v.peer_id := by
    rw [hS]
    split
    · rw [peerIds_map_priority, hC, peerIds_centerPriorities]
    · rw [hC, peerIds_centerPriorities]
  have hidsB : (addVotingPowers S).map (fun v => v.peer_id) =
      vs.map fun v => v.peer_id := by
    rw [peerIds_addVotingPowers, hidsS]
  cases hmax : maxByPriority (addVotingPowers S) with
  | none => rfl
  | some winner =>
    have hwmem : winner ∈ addVotingPowers S :=
      maxByPriority_mem _ winner hmax
    have hnodupB : ((addVotingPowers S).map fun v => v.peer_id).Nodup := by
      rw [hidsB]; exact hnodup
    dsimp only
    rw [replaceValidator_eq_map_sub (addVotingPowers S) winner _ hwmem hnodupB]

/-- Peer ids surviving one claim-side round (for `peer_id`-unique sets). -/
theorem claimSelectionRound_ids (vs vs2 : List AngstromValidator) (pid : Nat)
    (hnodup : (vs.map fun v => v.peer_id).Nodup)
    (h : claimSelectionRound vs = some (pid, vs2)) :
    vs2.map (fun v => v.peer_id) = vs.map fun v => v.peer_id := by
  rw [← selectionRound_eq_claim vs hnodup] at h
  exact peerIds_codeRound vs vs2 pid h

/-- A claim-side round succeeds on a nonempty `peer_id`-unique set. -/
theorem claimSelectionRound_isSome (vs : List AngstromValidator)
    (hne : vs ≠ []) (hnodup : (vs.map fun v => v.peer_id).Nodup) :
    ∃ pid vs2, claimSelectionRound vs = some (pid, vs2) := by
  rw [← selectionRound_eq_claim vs hnodup]
  exact codeRound_isSome vs hne

/-- The code-side catch-up loop equals the claim-side loop. -/
theorem catchupRounds_eq_claim (n : Nat) (vs : List AngstromValidator)
    (hnodup : (vs.map fun v => v.peer_id).Nodup) :
    catchupRounds n vs = claimCatchupRounds n vs := by
  induction n generalizing vs with
  | zero => rfl
  | succ n ih =>
    unfold catchupRounds claimCatchupRounds
    rw [selectionRound_eq_claim vs hnodup]
    cases hr : claimSelectionRound vs with
    | none => rfl
    | some p =>
      obtain ⟨pid, vs2⟩ := p
      have hids := claimSelectionRound_ids vs vs2 pid hnodup (by rw [hr])
      have hnodup2 : (vs2.map fun v => v.peer_id).Nodup := by
        rw [hids]; exact hnodup
      dsimp only
      rw [ih vs2 hnodup2]

/-- C3: `choose_proposer` performs, for each block from `block_number + 1`
through the target, exactly the selection round the claim describes
(re-center by subtracting the mean, conditionally rescale, boost by voting
power, select the maximum priority, subtract total power from the winner),
and — when there is at least one round and at least one validator — returns
the winner of the final round as the proposer. -/
theorem choose_proposer_follows_spec (w : WeightedRoundRobin) (target : Nat)
    (hnodup : (w.validators.map fun v => v.peer_id).Nodup) :
    (chooseProposer w target =
      match claimCatchupRounds (target - w.block_number) w.validators with
      | none => none
      | some (leader, vs) =>
        some (leader, { w with validators := vs, block_number := target })) ∧
    (w.block_number < target → w.validators ≠ [] →
      ∃ leader w2, chooseProposer w target = some (some leader, w2)) := by
  constructor
  · unfold chooseProposer
    rw [catchupRounds_eq_claim _ _ hnodup]
  · intro hlt hne
    unfold chooseProposer
    rw [catchupRounds_eq_claim _ _ hnodup]
    have hrounds : ∃ m, target - w.block_number = m + 1 := by
      refine ⟨target - w.block_number - 1, ?_⟩
      omega
    rcases hrounds with ⟨m, hm⟩
    rw [hm]
    -- the claim-side loop always succeeds with a leader on nonempty sets
    have hrun : ∀ (k : Nat) (vs : List AngstromValidator),
        vs ≠ [] → (vs.map fun v => v.peer_id).Nodup →
        ∃ leader vsf, claimCatchupRounds (k + 1) vs = some (some leader, vsf) := by
      intro k
      induction k with
      | zero =>
        intro vs hvne hvnodup
        rcases claimSelectionRound_isSome vs hvne hvnodup with ⟨pid, vs2, hround⟩
        refine ⟨pid, vs2, ?_⟩
        unfold claimCatchupRounds
        rw [hround]
        rfl
      | succ k ih =>
        intro vs hvne hvnodup
        rcases claimSelectionRound_isSome vs hvne hvnodup with ⟨pid, vs2, hround⟩
        have hids := claimSelectionRound_ids vs vs2 pid hvnodup hround
        have hvs2ne : vs2 ≠ [] := by
          intro hnil
          rw [hnil] at hids
          simp only [List.map_nil] at hids
          exact hvne (List.map_eq_nil_iff.mp hids.symm)
        have hvs2nodup : (vs2.map fun v => v.peer_id).Nodup := by
          rw [hids]; exact hvnodup
        rcases ih vs2 hvs2ne hvs2nodup with ⟨leader, vsf, hrest⟩
        refine ⟨leader, vsf, ?_⟩
        unfold claimCatchupRounds
        rw [hround]
        dsimp only
        rw [hrest]
        rfl
    rcases hrun m w.validators hne hnodup with ⟨leader, vsf, hfin⟩
    rw [hfin]
    exact ⟨leader, _, rfl⟩

/-- Closed witness for C3 with two validators and two catch-up rounds. -/
theorem choose_proposer_follows_spec_witness :
    (chooseProposer ⟨[⟨1, 10, 0⟩, ⟨2, 20, 0⟩], 9 / 8, 5⟩ 7 =
      match claimCatchupRounds (7 - 5) [⟨1, 10, 0⟩, ⟨2, 20, 0⟩] with
      | none => none
      | some (leader, vs) => some (leader, ⟨vs, 9 / 8, 7⟩)) ∧
    (∃ leader w2,
      chooseProposer ⟨[⟨1, 10, 0⟩, ⟨2, 20, 0⟩], 9 / 8, 5⟩ 7 =
        some (some leader, w2)) := by
  have h := choose_proposer_follows_spec ⟨[⟨1, 10, 0⟩, ⟨2, 20, 0⟩], 9 / 8, 5⟩ 7
    (by decide)
  exact ⟨h.1, h.2 (by decide) (by decide)⟩

/-- C10: with zero rounds to catch up (`target = stored block_number`),
`choose_proposer` returns no proposer and leaves the whole selector — in
particular every validator's priority — unchanged; consequently the leader
lookup performed by `ConsensusManager::new`, which builds the selector at
`current_height` and immediately calls `choose_proposer(current_height)`,
yields no proposer (the source then unwraps that `None`). -/
theorem choose_proposer_zero_rounds (w : WeightedRoundRobin)
    (validators : List AngstromValidator) (height : Nat) :
    chooseProposer w w.block_number = some (none, w) ∧
    managerInitLeader validators height = some none := by
  constructor
  · unfold chooseProposer
    rw [Nat.sub_self]
    rfl
  · unfold managerInitLeader chooseProposer mkWeightedRoundRobin
    dsimp only
    rw [Nat.sub_self]
    rfl

/-! ## Theorems: swap simulation (C4, C5, C6) -/

/-- C4: the typed failures of `_simulate_swap`.  (a) a zero
`amount_specified` yields `ZeroAmountSpecified`; (b) a caller-supplied limit
on the wrong side of the current price for the trade direction yields
`InvalidSqrtPriceLimit` (for zero-for-one: limit at or above the current
price, or at or below `MIN_SQRT_RATIO`; for one-for-zero: limit at or below
the current price, or at or above `MAX_SQRT_RATIO`); (c) a loop step that
lands on an initialized tick whose direction-adjusted `liquidity_net` would
drive the active liquidity below zero yields `LiquidityUnderflow`, and
(d) a failing step makes the whole simulation return that failure.  In every
case the result is an error: no swap result is produced. -/
theorem simulate_swap_error_conditions (O : SwapMathOracle) (fuel : Nat)
    (pool : EnhancedUniswapPool) (tokenIn : Nat) (amountSpecified : Int)
    (limit : Nat) (zeroForOne exactInput : Bool) :
    (∀ limitOpt, USimulateSwap O fuel pool tokenIn 0 limitOpt =
      some (.error .ZeroAmountSpecified)) ∧
    (amountSpecified ≠ 0 →
      ((tokenIn = pool.token_a ∧
          (pool.sqrt_price ≤ limit ∨ limit ≤ MIN_SQRT_RATIO)) ∨
        (tokenIn ≠ pool.token_a ∧
          (limit ≤ pool.sqrt_price ∨ MAX_SQRT_RATIO ≤ limit))) →
      USimulateSwap O fuel pool tokenIn amountSpecified (some limit) =
        some (.error .InvalidSqrtPriceLimit)) ∧
    (∀ (st : SwapLoopState) (tnRaw : Int) (np ain aout afee : Nat),
      O.nextInitializedTick pool.tick_bitmap st.tick pool.tick_spacing zeroForOne =
        .ok (tnRaw, true) →
      O.sqrtRatioAtTick (min MAX_TICK (max MIN_TICK tnRaw)) = .ok np →
      O.computeSwapStep st.sqrt_price_x_96
        (if (zeroForOne ∧ np < limit) ∨ (¬ zeroForOne ∧ limit < np)
          then limit else np)
        st.liquidity st.amount_specified_remaining pool.fee =
        .ok (np, ain, aout, afee) →
      crossedLiquidityNet zeroForOne pool.ticks
        (min MAX_TICK (max MIN_TICK tnRaw)) < 0 →
      st.liquidity < (crossedLiquidityNet zeroForOne pool.ticks
        (min MAX_TICK (max MIN_TICK tnRaw))).natAbs →
      simulateSwapStep O pool zeroForOne exactInput limit st =
        .error .LiquidityUnderflow) ∧
    (∀ (n : Nat) (st : SwapLoopState) (err : SwapSimulationError),
      st.amount_specified_remaining ≠ 0 → st.sqrt_price_x_96 ≠ limit →
      simulateSwapStep O pool zeroForOne exactInput limit st = .error err →
      simulateSwapLoop O pool zeroForOne exactInput limit (n + 1) st =
        some (.error err)) := by
  refine ⟨?_, ?_, ?_, ?_⟩
  · intro limitOpt
    unfold USimulateSwap
    rw [if_pos rfl]
  · intro hamt hside
    unfold USimulateSwap
    rw [if_neg hamt]
    dsimp only
    simp only [Option.getD_some]
    rcases hside with ⟨hz, hcond⟩ | ⟨hz, hcond⟩
    · rw [if_pos (Or.inl ⟨by simp [hz], hcond⟩)]
    · rw [if_pos (Or.inr ⟨by simp [hz], hcond⟩)]
  · intro st tnRaw np ain aout afee hnext hsqrt hstep hneg hlt
    unfold simulateSwapStep
    rw [hnext]
    dsimp only
    rw [hsqrt]
    dsimp only
    rw [hstep]
    dsimp only
    rw [if_pos rfl]
    unfold applyLiquidityNet
    rw [if_pos hneg, if_pos hlt]
    rfl
  · intro n st err hrem hprice hstep
    unfold simulateSwapLoop
    rw [if_pos ⟨hrem, hprice⟩]
    dsimp only
    rw [hstep]

/-- Closed witness for C4: all three error conditions fire on concrete
inputs (zero amount; zero-for-one limit above the current price; crossing
tick `1` with `liquidity_net = 10` against active liquidity `5`). -/
theorem simulate_swap_error_conditions_witness :
    (USimulateSwap testOracle 5 testPool 1 0 (some 4300000000000) =
      some (.error .ZeroAmountSpecified)) ∧
    (USimulateSwap testOracle 5 testPool 1 7 (some 6000000000001) =
      some (.error .InvalidSqrtPriceLimit)) ∧
    (simulateSwapLoop testOracleCross testPoolCross true true 4300000000000
      (4 + 1) ⟨7, 0, 6000000000000, 0, 5⟩ =
      some (.error .LiquidityUnderflow)) := by
  refine ⟨?_, ?_, ?_⟩
  · exact (simulate_swap_error_conditions testOracle 5 testPool 1 0
      4300000000000 true true).1 (some 4300000000000)
  · exact (simulate_swap_error_conditions testOracle 5 testPool 1 7
      6000000000001 true true).2.1 (by decide)
      (Or.inl ⟨by decide, Or.inl (by decide)⟩)
  · have hmain := simulate_swap_error_conditions testOracleCross 5 testPoolCross
      1 7 4300000000000 true true
    have hstep := hmain.2.2.1 ⟨7, 0, 6000000000000, 0, 5⟩ 1 4800000000000 3 2 1
      rfl rfl rfl (by decide) (by decide)
    exact hmain.2.2.2 4 ⟨7, 0, 6000000000000, 0, 5⟩ .LiquidityUnderflow
      (by decide) (by decide) hstep

/-- C5: the simulate-then-commit split.  On success `simulate_swap_mut`
returns exactly the amounts `simulate_swap` computes on the same state and
commits exactly the resulting price, tick and liquidity, leaving every other
pool field unchanged; on failure the pool is entirely unchanged and the same
error is surfaced. -/
theorem simulate_swap_mut_frame (O : SwapMathOracle) (fuel : Nat)
    (pool : EnhancedUniswapPool) (tokenIn : Nat) (amountSpecified : Int)
    (limitOpt : Option Nat) :
    (∀ res, USimulateSwap O fuel pool tokenIn amountSpecified limitOpt =
        some (.ok res) →
      USimulateSwapMut O fuel pool tokenIn amountSpecified limitOpt =
        some (commitSwapResult pool res, .ok (res.amount0, res.amount1)) ∧
      USimulateSwapAmounts O fuel pool tokenIn amountSpecified limitOpt =
        some (.ok (res.amount0, res.amount1)) ∧
      (commitSwapResult pool res).sqrt_price = res.sqrt_price_x_96 ∧
      (commitSwapResult pool res).tick = res.tick ∧
      (commitSwapResult pool res).liquidity = res.liquidity ∧
      (commitSwapResult pool res).sync_swap_with_sim = pool.sync_swap_with_sim ∧
      (commitSwapResult pool res).token_a = pool.token_a ∧
      (commitSwapResult pool res).token_a_decimals = pool.token_a_decimals ∧
      (commitSwapResult pool res).token_b = pool.token_b ∧
      (commitSwapResult pool res).token_b_decimals = pool.token_b_decimals ∧
      (commitSwapResult pool res).liquidity_net = pool.liquidity_net ∧
      (commitSwapResult pool res).fee = pool.fee ∧
      (commitSwapResult pool res).tick_spacing = pool.tick_spacing ∧
      (commitSwapResult pool res).tick_bitmap = pool.tick_bitmap ∧
      (commitSwapResult pool res).ticks = pool.ticks) ∧
    (∀ err, USimulateSwap O fuel pool tokenIn amountSpecified limitOpt =
        some (.error err) →
      USimulateSwapMut O fuel pool tokenIn amountSpecified limitOpt =
        some (pool, .error err)) := by
  constructor
  · intro res h
    unfold USimulateSwapMut USimulateSwapAmounts
    rw [h]
    exact ⟨rfl, rfl, rfl, rfl, rfl, rfl, rfl, rfl, rfl, rfl, rfl, rfl, rfl,
      rfl, rfl⟩
  · intro err h
    unfold USimulateSwapMut
    rw [h]
    rfl

/-- Closed witness for C5 at a successful concrete swap. -/
theorem simulate_swap_mut_frame_witness :
    USimulateSwapMut testOracle 5 testPool 1 7 (some 4300000000000) =
      some (commitSwapResult testPool ⟨4, -2, 4300000000000, 5, 0⟩,
        .ok (4, -2)) :=
  ((simulate_swap_mut_frame testOracle 5 testPool 1 7
    (some 4300000000000)).1 ⟨4, -2, 4300000000000, 5, 0⟩ (by decide)).1

/-- The combination loop of `sync_swap_with_sim`, characterized by
`List.find?`: the first combination whose simulation reproduces the log's
amounts exactly is committed; if none does, the loop fails with
`SwapSimulationFailed` and the pool is returned unchanged. -/
theorem trySyncCombos_spec (O : SwapMathOracle) (fuel : Nat)
    (pool : EnhancedUniswapPool) (e : SwapEventData)
    (l : List (Nat × Int))
    (hterm : ∀ c ∈ l,
      USimulateSwap O fuel pool c.1 c.2 (some e.sqrtPriceX96) ≠ none) :
    (l.find? (comboMatches O fuel pool e) = none →
      trySyncCombos O fuel pool e l = some (pool, .error .SwapSimulationFailed)) ∧
    (∀ c res, l.find? (comboMatches O fuel pool e) = some c →
      USimulateSwap O fuel pool c.1 c.2 (some e.sqrtPriceX96) = some (.ok res) →
      trySyncCombos O fuel pool e l = some (commitSwapResult pool res, .ok ())) := by
  induction l with
  | nil =>
    refine ⟨fun _ => rfl, fun c res hfind _ => ?_⟩
    simp at hfind
  | cons c rest ih =>
    have htermc : USimulateSwap O fuel pool c.1 c.2 (some e.sqrtPriceX96) ≠ none :=
      hterm c (List.mem_cons_self c rest)
    have htermrest : ∀ x ∈ rest,
        USimulateSwap O fuel pool x.1 x.2 (some e.sqrtPriceX96) ≠ none :=
      fun x hx => hterm x (List.mem_cons_of_mem c hx)
    rcases ih htermrest with ⟨ihnone, ihsome⟩
    cases hsim : USimulateSwap O fuel pool c.1 c.2 (some e.sqrtPriceX96) with
    | none => exact absurd hsim htermc
    | some r =>
      cases r with
      | error err =>
        have hmatch : comboMatches O fuel pool e c = false := by
          unfold comboMatches
          rw [hsim]
        constructor
        · intro hfind
          rw [List.find?_cons_of_neg _ (by rw [hmatch]; exact Bool.false_ne_true)] at hfind
          unfold trySyncCombos
          rw [hsim]
          exact ihnone hfind
        · intro c2 res hfind hsim2
          rw [List.find?_cons_of_neg _ (by rw [hmatch]; exact Bool.false_ne_true)] at hfind
          unfold trySyncCombos
          rw [hsim]
          exact ihsome c2 res hfind hsim2
      | ok res0 =>
        by_cases hm : res0.amount0 = e.amount0 ∧ res0.amount1 = e.amount1
        · have hmatch : comboMatches O fuel pool e c = true := by
            unfold comboMatches
            rw [hsim]
            simp [hm.1, hm.2]
          constructor
          · intro hfind
            rw [List.find?_cons_of_pos _ hmatch] at hfind
            exact absurd hfind (by simp)
          · intro c2 res hfind hsim2
            rw [List.find?_cons_of_pos _ hmatch] at hfind
            have hc2 : c2 = c := by
              simpa using hfind.symm
            subst hc2
            rw [hsim] at hsim2
            have hres : res0 = res := by
              simpa using hsim2
            subst hres
            unfold trySyncCombos
            rw [hsim]
            dsimp only
            rw [if_pos hm]
        · have hmatch : comboMatches O fuel pool e c = false := by
            unfold comboMatches
            rw [hsim]
            rcases not_and_or.mp hm with hne | hne <;> simp [hne]
          constructor
          · intro hfind
            rw [List.find?_cons_of_neg _ (by rw [hmatch]; exact Bool.false_ne_true)] at hfind
            unfold trySyncCombos
            rw [hsim]
            dsimp only
            rw [if_neg hm]
            exact ihnone hfind
          · intro c2 res hfind hsim2
            rw [List.find?_cons_of_neg _ (by rw [hmatch]; exact Bool.false_ne_true)] at hfind
            unfold trySyncCombos
            rw [hsim]
            dsimp only
            rw [if_neg hm]
            exact ihsome c2 res hfind hsim2

/-- C6: verify-mode swap sync.  With `sync_swap_with_sim` enabled,
`sync_from_swap_log` tries the four `(token_in, amount)` combinations of the
log's `amount0`/`amount1` with `token_a`/`token_b` through `simulate_swap`
at the log's `sqrtPriceX96` limit, commits the first combination whose
simulated amounts equal the log's exactly, and when no combination matches
returns `SwapSimulationFailed` leaving the pool unchanged. -/
theorem sync_from_swap_log_verify (O : SwapMathOracle) (fuel : Nat)
    (pool : EnhancedUniswapPool) (e : SwapEventData)
    (hsync : pool.sync_swap_with_sim = true)
    (hterm : ∀ c ∈ swapCombinations pool e,
      USimulateSwap O fuel pool c.1 c.2 (some e.sqrtPriceX96) ≠ none) :
    ((swapCombinations pool e).find? (comboMatches O fuel pool e) = none →
      syncFromSwapLog O fuel pool e =
        some (pool, .error .SwapSimulationFailed)) ∧
    (∀ c res,
      (swapCombinations pool e).find? (comboMatches O fuel pool e) = some c →
      USimulateSwap O fuel pool c.1 c.2 (some e.sqrtPriceX96) = some (.ok res) →
      syncFromSwapLog O fuel pool e =
        some (commitSwapResult pool res, .ok ())) := by
  unfold syncFromSwapLog syncSwapWithSim
  rw [if_pos hsync]
  exact trySyncCombos_spec O fuel pool e (swapCombinations pool e) hterm

/-- Closed witness for C6: the second combination `(token_a, amount0)`
matches the log exactly and is committed. -/
theorem sync_from_swap_log_verify_witness :
    syncFromSwapLog testOracle 5 testPool ⟨4, -2, 4300000000000, 5, 0⟩ =
      some (commitSwapResult testPool ⟨4, -2, 4300000000000, 5, 0⟩, .ok ()) :=
  (sync_from_swap_log_verify testOracle 5 testPool ⟨4, -2, 4300000000000, 5, 0⟩
    (by decide) (by decide)).2 (1, 4) ⟨4, -2, 4300000000000, 5, 0⟩
    (by decide) (by decide)

/-! ## Theorems: ToB reward conservation (C1) and clean failure (C7) -/

/-- The donation list's values sum to the `reward_t` accumulator. -/
theorem donationLoop_sum (ct m : Int) (filled : ℚ) :
    ∀ (l : List Stake) (i : Nat),
    ((donationLoop ct m filled l i).1.map Prod.snd).sum =
      (donationLoop ct m filled l i).2 := by
  intro l
  induction l with
  | nil => intro i; rfl
  | cons s rest ih =>
    intro i
    unfold donationLoop
    dsimp only
    by_cases hav : s.avg < filled
    · rw [if_pos hav]
      by_cases hr : 0 < rayMulQuantity (filled - s.avg) s.amount_out
      · rw [if_pos hr]
        simp only [List.map_cons, List.sum_cons]
        rw [ih (i + 1)]
      · rw [if_neg hr]
        exact ih (i + 1)
    · rw [if_neg hav]
      exact ih (i + 1)

/-- Every donation key produced from index `i` onward has the form
`current_tick + j * tick_motion` for some `j ≥ i`. -/
theorem donationLoop_key_mem (ct m : Int) (filled : ℚ) :
    ∀ (l : List Stake) (i : Nat) (k : Int × Nat),
      k ∈ (donationLoop ct m filled l i).1 →
      ∃ j : Nat, i ≤ j ∧ k.1 = ct + (j : Int) * m := by
  intro l
  induction l with
  | nil =>
    intro i k hk
    exact absurd hk (by simp [donationLoop])
  | cons s rest ih =>
    intro i k hk
    unfold donationLoop at hk
    dsimp only at hk
    by_cases hav : s.avg < filled
    · rw [if_pos hav] at hk
      by_cases hr : 0 < rayMulQuantity (filled - s.avg) s.amount_out
      · rw [if_pos hr] at hk
        rcases List.mem_cons.mp hk with hhead | hmem
        · exact ⟨i, le_refl i, by rw [hhead]⟩
        · rcases ih (i + 1) k hmem with ⟨j, hj, hkey⟩
          exact ⟨j, by omega, hkey⟩
      · rw [if_neg hr] at hk
        rcases ih (i + 1) k hk with ⟨j, hj, hkey⟩
        exact ⟨j, by omega, hkey⟩
    · rw [if_neg hav] at hk
      rcases ih (i + 1) k hk with ⟨j, hj, hkey⟩
      exact ⟨j, by omega, hkey⟩

/-- With a nonzero tick motion the donation keys are pairwise distinct:
each donated tick appears at most once. -/
theorem donationLoop_keys_nodup (ct m : Int) (hm : m ≠ 0) (filled : ℚ) :
    ∀ (l : List Stake) (i : Nat),
      ((donationLoop ct m filled l i).1.map Prod.fst).Nodup := by
  intro l
  induction l with
  | nil => intro i; simp [donationLoop]
  | cons s rest ih =>
    intro i
    unfold donationLoop
    dsimp only
    by_cases hav : s.avg < filled
    · rw [if_pos hav]
      by_cases hr : 0 < rayMulQuantity (filled - s.avg) s.amount_out
      · rw [if_pos hr]
        simp only [List.map_cons, List.nodup_cons]
        refine ⟨?_, ih (i + 1)⟩
        intro hmem
        rcases List.mem_map.mp hmem with ⟨k, hk, hkey⟩
        rcases donationLoop_key_mem ct m filled rest (i + 1) k hk with
          ⟨j, hj, hkeq⟩
        rw [hkeq] at hkey
        have hmul : (j : Int) * m = (i : Int) * m := by omega
        have hji : (j : Int) = (i : Int) := mul_right_cancel₀ hm hmul
        have : j = i := by exact_mod_cast hji
        omega
      · rw [if_neg hr]
        exact ih (i + 1)
    · rw [if_neg hav]
      exact ih (i + 1)

/-- C1: exact conservation of value.  Whenever `calculate_reward` returns an
outcome, the sum of its tick donations plus its tribute plus its total cost
equals the order's `amountIn` exactly in integer arithmetic (the donated
ticks being pairwise distinct, so the list sum is the map sum); moreover the
donations never exceed the bribe `amountIn - total_cost` — the tribute
absorbs any rounding remainder, so rounding can only under-donate, never
over-donate. -/
theorem calculate_reward_conservation (O : TobMathOracle)
    (tob : TopOfBlockOrderData) (amm : MarketSnapshot) (fuel : Nat)
    (outcome : ToBOutcome)
    (h : calculateReward O tob amm fuel = some (.ok outcome)) :
    ((outcome.tick_donations.map Prod.snd).sum + outcome.tribute +
      outcome.total_cost = tob.amountIn) ∧
    (outcome.tick_donations.map Prod.fst).Nodup ∧
    ((outcome.tick_donations.map Prod.snd).sum + outcome.total_cost ≤
      tob.amountIn) := by
  unfold calculateReward at h
  dsimp only at h
  cases hwalk : walkStakes O amm.liquidityAtTick
      (if tob.is_bid then (1 : Int) else -1) tobFeePips fuel
      (-(tob.amountOut : Int)) amm.current_tick amm.sqrt_price_x96 with
  | none =>
    rw [hwalk] at h
    exact absurd h (by simp)
  | some r =>
    rw [hwalk] at h
    cases r with
    | error e => exact absurd h (by simp)
    | ok p =>
      obtain ⟨stakes, totalCost⟩ := p
      dsimp only at h
      by_cases hcost : tob.amountIn < totalCost
      · rw [if_pos hcost] at h
        exact absurd h (by simp)
      · rw [if_neg hcost] at h
        cases stakes with
        | nil => exact absurd h (by simp)
        | cons s0 rest =>
          dsimp only at h
          cases hfill : fillLoop (s0 :: rest) 0 (tob.amountIn - totalCost)
              s0.avg with
          | error e =>
            rw [hfill] at h
            exact absurd h (by simp)
          | ok filledPrice =>
            rw [hfill] at h
            dsimp only at h
            by_cases htrib : tob.amountIn - totalCost <
                (donationLoop amm.current_tick
                  (if tob.is_bid then (1 : Int) else -1) filledPrice
                  (s0 :: rest) 0).2
            · rw [if_pos htrib] at h
              exact absurd h (by simp)
            · rw [if_neg htrib] at h
              simp only [Option.some_inj, Except.ok.injEq] at h
              subst h
              dsimp only
              refine ⟨?_, ?_, ?_⟩
              · rw [donationLoop_sum]
                omega
              · apply donationLoop_keys_nodup
                cases tob.is_bid <;> simp
              · rw [donationLoop_sum]
                omega

unseal Rat.mul Rat.inv Rat.add Rat.sub in
/-- Closed witness for C1: a bid of `amountIn = 50` for `amountOut = 2`
spends `5`, donates `45` to tick `0` and leaves tribute `0`, summing back
to `50` exactly. -/
theorem calculate_reward_conservation_witness :
    (([((0 : Int), (45 : Nat))].map Prod.snd).sum + 0 + 5 = 50) ∧
    ([((0 : Int), (45 : Nat))].map Prod.fst).Nodup ∧
    (([((0 : Int), (45 : Nat))].map Prod.snd).sum + 5 ≤ 50) :=
  calculate_reward_conservation tobTestOracle ⟨50, 2, true⟩ tobTestMarket 3
    ⟨0, 1000, 0, 5, [(0, 45)]⟩ (by decide)

/-- C7: clean failure when the order cannot fund its own execution.  If the
curve walk needed to produce `amountOut` accumulates a total cost (amounts
in plus fees) exceeding the order's `amountIn`, `calculate_reward` fails
with the `Total cost greater than amount offered` error and produces no
outcome. -/
theorem calculate_reward_insufficient (O : TobMathOracle)
    (tob : TopOfBlockOrderData) (amm : MarketSnapshot) (fuel : Nat)
    (stakes : List Stake) (totalCost : Nat)
    (hwalk : walkStakes O amm.liquidityAtTick
      (if tob.is_bid then (1 : Int) else -1) tobFeePips fuel
      (-(tob.amountOut : Int)) amm.current_tick amm.sqrt_price_x96 =
      some (.ok (stakes, totalCost)))
    (hcost : tob.amountIn < totalCost) :
    calculateReward O tob amm fuel = some (.error .TotalCostGreater) := by
  unfold calculateReward
  dsimp only
  rw [hwalk]
  dsimp only
  rw [if_pos hcost]

unseal Rat.mul Rat.inv Rat.add Rat.sub in
/-- Closed witness for C7: an order offering `amountIn = 3` against a walk
costing `5` fails with the total-cost error. -/
theorem calculate_reward_insufficient_witness :
    calculateReward tobTestOracle ⟨3, 2, true⟩ tobTestMarket 3 =
      some (.error .TotalCostGreater) :=
  calculate_reward_insufficient tobTestOracle ⟨3, 2, true⟩ tobTestMarket 3
    [⟨2, 100, 2⟩] 5 (by decide) (by decide)

end Angstrom
